import Mathlib

/-!
Shallow embedding of the execution-plan wire decoder, the formatting helpers
and the plan-selection state of the `liquid-cache-admin` repository
(`src/models/execution_plan.rs`, `src/utils.rs`,
`src/components/execution_plans.rs`), together with theorems settling the
specification's claims about them.

The Rust code decodes JSON text with `serde_json::from_str`.  We model JSON
documents by the inductive `Json` below and the textual parsing step by an
executable recursive-descent parser `Json.parse`.  The parser covers the JSON
fragment actually exchanged by this program: objects, arrays, strings with the
common escapes, integer numerals, booleans and null.  Unicode escapes and
fractional or exponent numerals never occur in the records the claims are
about (every numeric wire field is an unsigned integer, and `serde` rejects
fractional numbers for `u64` fields anyway); the model rejects them.
-/

namespace LiquidCacheAdmin

/-- A JSON document.  Numbers are restricted to integer numerals, the only
numbers the wire format of this program carries. -/
inductive Json where
  | null : Json
  | bool (b : Bool) : Json
  | num (n : Int) : Json
  | str (s : String) : Json
  | arr (elems : List Json) : Json
  | obj (fields : List (String × Json)) : Json
  deriving Repr

/-- Json whitespace. -/
def isWs (c : Char) : Bool :=
  c = ' ' ∨ c = '\t' ∨ c = '\n' ∨ c = '\r'

/-- Drop leading whitespace. -/
def skipWs : List Char → List Char
  | [] => []
  | c :: cs => if isWs c then skipWs cs else c :: cs

/-- Decode one escape character of a JSON string (the character after the
backslash).  `\u` escapes are not produced by this program's wire format and
are rejected. -/
def escChar (e : Char) : Option Char :=
  if e = '"' ∨ e = '\\' ∨ e = '/' then some e
  else if e = 'n' then some '\n'
  else if e = 't' then some '\t'
  else if e = 'r' then some '\r'
  else if e = 'b' then some (Char.ofNat 8)
  else if e = 'f' then some (Char.ofNat 12)
  else none

/-- Parse the body of a JSON string (the opening quote already consumed),
returning the decoded characters and the remaining input. -/
def parseStrChars : List Char → Option (List Char × List Char)
  | [] => none
  | '"' :: rest => some ([], rest)
  | '\\' :: [] => none
  | '\\' :: e :: rest => do
      let c ← escChar e
      let (s, r) ← parseStrChars rest
      pure (c :: s, r)
  | c :: rest => do
      let (s, r) ← parseStrChars rest
      pure (c :: s, r)

/-- Parse a maximal run of decimal digits: value, number of digits, rest. -/
def parseDigits : List Char → Nat → Nat → Nat × Nat × List Char
  | c :: cs, acc, count =>
    if c.isDigit then parseDigits cs (acc * 10 + (c.toNat - 48)) (count + 1)
    else (acc, count, c :: cs)
  | [], acc, count => (acc, count, [])

/-- Parse the non-empty element list of a JSON array with element parser
`pv`, positioned at the first element; consumes the closing bracket.
(Separately fueled so that every parsing function is plain structural
recursion, which the kernel can evaluate.) -/
def parseArrItemsWith (pv : List Char → Option (Json × List Char)) :
    Nat → List Char → Option (List Json × List Char)
  | 0, _ => none
  | fuel + 1, input => do
      let (j, r) ← pv input
      match skipWs r with
      | ']' :: r2 => some ([j], r2)
      | ',' :: r2 => do
          let (js, r3) ← parseArrItemsWith pv fuel r2
          pure (j :: js, r3)
      | _ => none

/-- Parse the non-empty member list of a JSON object with value parser `pv`,
positioned at the first member; consumes the closing brace. -/
def parseObjItemsWith (pv : List Char → Option (Json × List Char)) :
    Nat → List Char → Option (List (String × Json) × List Char)
  | 0, _ => none
  | fuel + 1, input =>
    match skipWs input with
    | '"' :: r =>
      (do
        let (k, r1) ← parseStrChars r
        match skipWs r1 with
        | ':' :: r2 => do
            let (v, r3) ← pv r2
            (match skipWs r3 with
             | '\x7d' :: r4 => some ([(String.mk k, v)], r4)
             | ',' :: r4 => do
                 let (ms, r5) ← parseObjItemsWith pv fuel r4
                 pure ((String.mk k, v) :: ms, r5)
             | _ => none)
        | _ => none)
    | _ => none

/-- Parse one JSON value.  `fuel` bounds the recursion; callers derive it from
the input length, which over-approximates the nesting depth. -/
def parseVal : Nat → List Char → Option (Json × List Char)
  | 0, _ => none
  | fuel + 1, input =>
    match skipWs input with
    | 'n' :: 'u' :: 'l' :: 'l' :: rest => some (Json.null, rest)
    | 't' :: 'r' :: 'u' :: 'e' :: rest => some (Json.bool true, rest)
    | 'f' :: 'a' :: 'l' :: 's' :: 'e' :: rest => some (Json.bool false, rest)
    | '"' :: rest => do
        let (s, r) ← parseStrChars rest
        pure (Json.str (String.mk s), r)
    | '-' :: rest =>
        match parseDigits rest 0 0 with
        | (_, 0, _) => none
        | (v, _ + 1, r) => some (Json.num (-(v : Int)), r)
    | '[' :: rest =>
        (match skipWs rest with
         | ']' :: r => some (Json.arr [], r)
         | r => do
             let (es, r2) ← parseArrItemsWith (parseVal fuel) fuel r
             pure (Json.arr es, r2))
    | '\x7b' :: rest =>
        (match skipWs rest with
         | '\x7d' :: r => some (Json.obj [], r)
         | r => do
             let (fs, r2) ← parseObjItemsWith (parseVal fuel) fuel r
             pure (Json.obj fs, r2))
    | c :: rest =>
        if c.isDigit then
          match parseDigits (c :: rest) 0 0 with
          | (_, 0, _) => none
          | (v, _ + 1, r) => some (Json.num (v : Int), r)
        else none
    | [] => none

/-- Models `serde_json::from_str`'s parsing phase: parse a whole string as a
single JSON document, requiring only whitespace after the value. -/
def Json.parse (s : String) : Option Json :=
  match parseVal (2 * s.length + 2) s.data with
  | some (j, rest) => if skipWs rest = [] then some j else none
  | none => none

/-- Escape one character for inclusion in a JSON string literal (used only to
construct concrete wire inputs for the theorems below). -/
def escapeChar (c : Char) : List Char :=
  if c = '"' then ['\\', '"']
  else if c = '\\' then ['\\', '\\']
  else if c = '\n' then ['\\', 'n']
  else if c = '\t' then ['\\', 't']
  else if c = '\r' then ['\\', 'r']
  else [c]

/-- Render a string as a JSON string literal. -/
def renderString (s : String) : String :=
  "\"" ++ String.mk (List.flatten (s.data.map escapeChar)) ++ "\""

/-- Comma-separated concatenation. -/
def joinComma : List String → String
  | [] => ""
  | [s] => s
  | s :: ss => s ++ "," ++ joinComma ss

/-- Fueled serializer body (plain structural recursion on the depth fuel so
the kernel can evaluate it). -/
def renderF : Nat → Json → String
  | 0, _ => ""
  | fuel + 1, j =>
    match j with
    | .null => "null"
    | .bool true => "true"
    | .bool false => "false"
    | .num n => toString n
    | .str s => renderString s
    | .arr es => "[" ++ joinComma (es.map (renderF fuel)) ++ "]"
    | .obj fs =>
        "\x7b" ++ joinComma (fs.map (fun f => renderString f.1 ++ ":" ++ renderF fuel f.2)) ++ "\x7d"

/-- Serialize a JSON document (used only to construct concrete wire inputs,
including the double-encoded `plan` / `children` payloads; all of those are
of depth well below the fixed fuel). -/
def Json.render (j : Json) : String :=
  renderF 100 j

/-! ## Data model (`src/models/execution_plan.rs`) -/

/-- `SchemaField` of `src/models/execution_plan.rs`. -/
structure SchemaField where
  name : String
  data_type : String
  deriving Repr, DecidableEq

/-- `ColumnStatistic` of `src/models/execution_plan.rs`. -/
structure ColumnStatistic where
  name : String
  null : Option String
  max : Option String
  min : Option String
  sum : Option String
  distinct : Option String
  deriving Repr, DecidableEq

/-- `Statistics` of `src/models/execution_plan.rs`. -/
structure Statistics where
  num_rows : Option String
  total_byte_size : Option String
  columns : List ColumnStatistic
  deriving Repr, DecidableEq

/-- `ExecutionStats` of `src/models/execution_plan.rs`. -/
structure ExecutionStats where
  plan_id : String
  display_name : String
  flamegraph_svg : Option String
  network_traffic_bytes : Nat
  execution_time_ms : Nat
  deriving Repr, DecidableEq

/-- `ExecutionPlanNode` of `src/models/execution_plan.rs`.  The Rust struct
stores `metrics` in a `HashMap<String, String>`; we model it as the
association list in wire order (the component sorts it by key before any
order-sensitive use, see `formatNodeMetrics`). -/
inductive ExecutionPlanNode where
  | mk (name : String) (schema : List SchemaField) (statistics : Option Statistics)
      (metrics : List (String × String)) (children : List ExecutionPlanNode)
  deriving Repr

def ExecutionPlanNode.name : ExecutionPlanNode → String
  | .mk n _ _ _ _ => n

def ExecutionPlanNode.schema : ExecutionPlanNode → List SchemaField
  | .mk _ s _ _ _ => s

def ExecutionPlanNode.statistics : ExecutionPlanNode → Option Statistics
  | .mk _ _ st _ _ => st

def ExecutionPlanNode.metrics : ExecutionPlanNode → List (String × String)
  | .mk _ _ _ m _ => m

def ExecutionPlanNode.children : ExecutionPlanNode → List ExecutionPlanNode
  | .mk _ _ _ _ c => c

/-- `ExecutionPlan` of `src/models/execution_plan.rs`. -/
structure ExecutionPlan where
  id : String
  plan : ExecutionPlanNode
  created_at : Nat
  formatted_time : String
  stats : Option ExecutionStats
  deriving Repr

/-- `ExecutionPlanResponse` of `src/models/execution_plan.rs` (the outer
record shape of each wire pair). -/
structure ExecutionPlanResponse where
  plan : String
  id : String
  created_at : Nat
  stats : Option String
  deriving Repr, DecidableEq

/-! ## Field-level decoding (models the derived `serde::Deserialize` impls)

The derived impls read a JSON object, ignore unknown fields, error on a
missing non-`Option` field and on a type mismatch, and read a missing or
`null` `Option` field as `None`.  We model field lookup by
first-occurrence search; `serde` rejects duplicate fields outright, and no
record in the claims has any. -/

/-- Look up a field of a JSON object. -/
def Json.getField? (j : Json) (name : String) : Option Json :=
  match j with
  | .obj fs => (fs.find? (fun f => f.1 == name)).map (·.2)
  | _ => none

/-- Decode a JSON value as a string. -/
def decodeString : Json → Except String String
  | .str s => .ok s
  | _ => .error "invalid type: expected a string"

/-- Decode a JSON value as a `u64` (a non-negative integer below `2^64`). -/
def decodeU64 : Json → Except String Nat
  | .num n => if 0 ≤ n ∧ n < 2 ^ 64 then .ok n.toNat else .error "invalid value: out of u64 range"
  | _ => .error "invalid type: expected an unsigned integer"

/-- Decode a required field. -/
def decodeField (j : Json) (name : String) (dec : Json → Except String α) :
    Except String α :=
  match j.getField? name with
  | some v => dec v
  | none => .error ("missing field " ++ name)

/-- Decode an `Option` field: missing or `null` is `none`; anything else must
decode. -/
def decodeOptField (j : Json) (name : String) (dec : Json → Except String α) :
    Except String (Option α) :=
  match j.getField? name with
  | none => .ok none
  | some .null => .ok none
  | some v => (dec v).map some

/-- Decode each element of a list (a `Vec<T>` field): every element must
decode. -/
def decodeList (dec : Json → Except String α) : List Json → Except String (List α)
  | [] => .ok []
  | e :: es => do
      let x ← dec e
      let xs ← decodeList dec es
      pure (x :: xs)

/-- Decode a JSON value as an array with element decoder `dec`. -/
def decodeArray (dec : Json → Except String α) : Json → Except String (List α)
  | .arr es => decodeList dec es
  | _ => .error "invalid type: expected a sequence"

/-- Decode a `HashMap<String, String>` field value.  Entries are kept in wire
order. -/
def decodeStringPairs : List (String × Json) → Except String (List (String × String))
  | [] => .ok []
  | (k, .str v) :: fs => (decodeStringPairs fs).map (fun l => (k, v) :: l)
  | _ :: _ => .error "invalid type: expected a string value"

/-- Decode a JSON value as a string-to-string map. -/
def decodeStringMap : Json → Except String (List (String × String))
  | .obj fs => decodeStringPairs fs
  | _ => .error "invalid type: expected a map"

/-- Decode the element list of `Vec<String>` (the first phase of
`deserialize_children`): every element must be a JSON string. -/
def decodeStringList : List Json → Except String (List String)
  | [] => .ok []
  | .str s :: es => (decodeStringList es).map (fun l => s :: l)
  | _ :: _ => .error "invalid type: expected a string"

/-- Derived `Deserialize` for `SchemaField`. -/
def decodeSchemaField (j : Json) : Except String SchemaField := do
  let name ← decodeField j "name" decodeString
  let data_type ← decodeField j "data_type" decodeString
  pure { name := name, data_type := data_type }

/-- Derived `Deserialize` for `ColumnStatistic`. -/
def decodeColumnStatistic (j : Json) : Except String ColumnStatistic := do
  let name ← decodeField j "name" decodeString
  let null ← decodeOptField j "null" decodeString
  let max ← decodeOptField j "max" decodeString
  let min ← decodeOptField j "min" decodeString
  let sum ← decodeOptField j "sum" decodeString
  let distinct ← decodeOptField j "distinct" decodeString
  pure { name := name, null := null, max := max, min := min, sum := sum,
         distinct := distinct }

/-- Derived `Deserialize` for `Statistics`. -/
def decodeStatistics (j : Json) : Except String Statistics := do
  let num_rows ← decodeOptField j "num_rows" decodeString
  let total_byte_size ← decodeOptField j "total_byte_size" decodeString
  let columns ← decodeField j "columns" (decodeArray decodeColumnStatistic)
  pure { num_rows := num_rows, total_byte_size := total_byte_size, columns := columns }

/-- Derived `Deserialize` for `ExecutionStats`. -/
def decodeExecutionStats (j : Json) : Except String ExecutionStats := do
  let plan_id ← decodeField j "plan_id" decodeString
  let display_name ← decodeField j "display_name" decodeString
  let flamegraph_svg ← decodeOptField j "flamegraph_svg" decodeString
  let network_traffic_bytes ← decodeField j "network_traffic_bytes" decodeU64
  let execution_time_ms ← decodeField j "execution_time_ms" decodeU64
  pure { plan_id := plan_id, display_name := display_name,
         flamegraph_svg := flamegraph_svg,
         network_traffic_bytes := network_traffic_bytes,
         execution_time_ms := execution_time_ms }

/-- Derived `Deserialize` for `ExecutionPlanResponse`.  `stats` is an
`Option<String>`: missing or `null` reads as `None`. -/
def decodeResponse (j : Json) : Except String ExecutionPlanResponse := do
  match j with
  | .obj _ => do
      let plan ← decodeField j "plan" decodeString
      let id ← decodeField j "id" decodeString
      let created_at ← decodeField j "created_at" decodeU64
      let stats ← decodeOptField j "stats" decodeString
      pure { plan := plan, id := id, created_at := created_at, stats := stats }
  | _ => .error "invalid type: expected an object"

/-- One child of `deserialize_children`, with node decoder `dec`:
`serde_json::from_str::<ExecutionPlanNode>` on the child string, keeping
`Ok` and dropping `Err`. -/
def parseChildWith (dec : Json → Except String ExecutionPlanNode) (s : String) :
    Option ExecutionPlanNode :=
  match Json.parse s with
  | none => none
  | some j => (dec j).toOption

/-- `deserialize_children` of `src/models/execution_plan.rs` lines 16-33,
with node decoder `dec`: first deserialize the field as a `Vec<String>` (any
non-string element fails the whole node), then parse each string as its own
JSON document and decode it as an `ExecutionPlanNode`, silently dropping
(logging only) every string that fails either step. -/
def deserializeChildrenWith (dec : Json → Except String ExecutionPlanNode) (v : Json) :
    Except String (List ExecutionPlanNode) :=
  match v with
  | .arr es => (decodeStringList es).map (fun ss => ss.filterMap (parseChildWith dec))
  | _ => .error "invalid type: expected a sequence"

/-- Derived `Deserialize` for `ExecutionPlanNode`
(`src/models/execution_plan.rs` lines 6-14).  The `children` field carries
`#[serde(default, deserialize_with = "deserialize_children")]`: a missing
field defaults to `[]`, a present field goes through
`deserialize_children`.  `fuel` bounds the child recursion; the Rust code
re-enters `serde_json::from_str` for each child string, which is strictly
shorter than the string containing it, so a fuel derived from the input
length over-approximates the real recursion. -/
def decodeNode : Nat → Json → Except String ExecutionPlanNode
  | 0, _ => .error "recursion limit exceeded"
  | fuel + 1, j =>
    match j with
    | .obj _ => do
        let name ← decodeField j "name" decodeString
        let schema ← decodeField j "schema" (decodeArray decodeSchemaField)
        let statistics ← decodeOptField j "statistics" decodeStatistics
        let metrics ← decodeField j "metrics" decodeStringMap
        let children ←
          match j.getField? "children" with
          | none => .ok []
          | some v => deserializeChildrenWith (decodeNode fuel) v
        pure (.mk name schema statistics metrics children)
    | _ => .error "invalid type: expected an object"

/-- `deserialize_children` at recursion budget `fuel` (see
`deserializeChildrenWith`). -/
def deserialize_children (fuel : Nat) (v : Json) : Except String (List ExecutionPlanNode) :=
  deserializeChildrenWith (decodeNode fuel) v

/-- One child parse of `deserialize_children` at recursion budget `fuel`. -/
def parseChild (fuel : Nat) (s : String) : Option ExecutionPlanNode :=
  parseChildWith (decodeNode fuel) s

/-! ## `parse_execution_plans` (`src/models/execution_plan.rs` lines 114-177) -/

/-- Two-digit zero-padded rendering. -/
def pad2 (n : Nat) : String :=
  if n < 10 then "0" ++ toString n else toString n

/-- Models `Utc.timestamp_opt(created_at as i64, 0).single()` being `Some`:
the `u64` is cast to `i64` (values `≥ 2^63` wrap to negatives) and `chrono`
accepts second counts within its `MIN_UTC ..= MAX_UTC` range (about year
±262000).  The exact chrono bounds are immaterial to every claim (all
concrete timestamps are tiny); the model keeps the branch structure. -/
def timestampValid (t : Nat) : Bool :=
  if t < 2 ^ 63 then t ≤ 8210266876799 else 2 ^ 64 - t ≤ 8334601228800

/-- Models `local_datetime.format("%H:%M:%S")`.  The Rust code renders in the
viewer's local timezone; the model renders the UTC time of day (the local
offset is environment state outside the program).  No claim depends on the
rendered value. -/
def formatTime (t : Nat) : String :=
  pad2 (t / 3600 % 24) ++ ":" ++ pad2 (t % 3600 / 60) ++ ":" ++ pad2 (t % 60)

/-- The `stats` stage of the loop body (`execution_plan.rs` lines 132-146):
`serde_json::from_str::<ExecutionStats>` on the stats string, with `Err`
logged and turned into `None`. -/
def decodeStats (s : String) : Option ExecutionStats :=
  match Json.parse s with
  | none => none
  | some j => (decodeExecutionStats j).toOption

/-- The per-record tail of the loop body after the outer record parsed: parse
the nested `plan` string, validate the timestamp (`?`-propagated error), and
assemble the `ExecutionPlan` — with `id := key` (the outer wire key) and the
best-effort stats. -/
def buildPlan (key : String) (resp : ExecutionPlanResponse) : Except String ExecutionPlan :=
  match Json.parse resp.plan with
  | none => .error ("Failed to parse execution plan for key " ++ key)
  | some pj =>
    match decodeNode (resp.plan.length + 1) pj with
    | .error _ => .error ("Failed to parse execution plan for key " ++ key)
    | .ok node =>
      if timestampValid resp.created_at then
        .ok { id := key, plan := node, created_at := resp.created_at,
              formatted_time := formatTime resp.created_at,
              stats := resp.stats.bind decodeStats }
      else .error ("Invalid timestamp for plan " ++ key)

/-- One iteration of the `for (key, value) in response` loop of
`parse_execution_plans`: any `Err` aborts the whole function (the Rust code
`return Err(...)`s on the outer parse, the plan parse, and the timestamp). -/
def decodeRecord (key value : String) : Except String ExecutionPlan :=
  match Json.parse value with
  | none => .error ("Failed to parse execution plan response for key " ++ key)
  | some j =>
    match decodeResponse j with
    | .error _ => .error ("Failed to parse execution plan response for key " ++ key)
    | .ok resp => buildPlan key resp

/-- The `for (key, value) in response` loop of `parse_execution_plans`:
decode every record in order, aborting on the first failure (every `Err`
arm of the loop body `return`s the error). -/
def decodeAll : List (String × String) → Except String (List ExecutionPlan)
  | [] => .ok []
  | kv :: rest => do
      let p ← decodeRecord kv.1 kv.2
      let ps ← decodeAll rest
      pure (p :: ps)

/-- One step of a stable insertion sort: `keep q p = true` means the
comparator orders `q` strictly before `p`, so `p` is inserted before the
first element not strictly before it — exactly where Rust's stable
`sort_by` leaves an element that arrived later in the input. -/
def insertBy (keep : α → α → Bool) (p : α) : List α → List α
  | [] => [p]
  | q :: qs => if keep q p then q :: insertBy keep p qs else p :: q :: qs

/-- Stable insertion sort: folding `insertBy` from the right inserts earlier
input elements last, so an earlier element ends up before every tie.  This
computes the unique stable result of Rust's `Vec::sort_by`. -/
def stableSortBy (keep : α → α → Bool) (l : List α) : List α :=
  l.foldr (insertBy keep) []

/-- Models `plans.sort_by(|a, b| b.created_at.cmp(&a.created_at))`: a stable
descending sort by `created_at`: an already-placed `q` stays before a
later-inserted `p` exactly when `p.created_at < q.created_at`, and a tie
keeps the input order. -/
def sortPlansDesc (l : List ExecutionPlan) : List ExecutionPlan :=
  stableSortBy (fun q p => p.created_at < q.created_at) l

/-- `parse_execution_plans` of `src/models/execution_plan.rs` lines 114-177:
fail-fast decode of every `(key, value)` pair, then the stable descending
sort by `created_at`. -/
def parse_execution_plans (response : List (String × String)) :
    Except String (List ExecutionPlan) :=
  (decodeAll response).map sortPlansDesc

/-! ## Formatting helpers (`src/utils.rs`)

The Rust helpers divide in `f64` and render with `format!("{:.2}", _)`,
which prints the exact binary value rounded to two decimals, ties to even.
For a `u64` below `2^53` the `as f64` conversion is exact and the divisions
by powers of two (`format_bytes`) are exact, so the exact-rational rounding
below coincides with the Rust output there; for the power-of-ten divisors
the model rounds the exact quotient instead of the (once-rounded) `f64`
quotient, which differs only on inputs at a rounding boundary of the 53-bit
mantissa.  Every claim about concrete digits is at an exactly representable
input. -/

/-- Round `num / den` (with `den ≠ 0`) to the nearest integer, ties to
even. -/
def roundHalfEvenN (num den : Nat) : Nat :=
  let q := num / den
  let r := num % den
  if den < 2 * r then q + 1
  else if 2 * r < den then q
  else if q % 2 = 0 then q else q + 1

/-- Render `num / den` with two decimal places (`format!("{:.2}", _)` on the
exact quotient). -/
def fmt2N (num den : Nat) : String :=
  let h := roundHalfEvenN (num * 100) den
  toString (h / 100) ++ "." ++ pad2 (h % 100)

/-- `format_bytes` of `src/utils.rs` lines 5-15. -/
def format_bytes (bytes : Nat) : String :=
  if bytes < 1024 then toString bytes ++ " B"
  else if bytes < 1024 * 1024 then fmt2N bytes 1024 ++ " KB"
  else if bytes < 1024 * 1024 * 1024 then fmt2N bytes (1024 * 1024) ++ " MB"
  else fmt2N bytes (1024 * 1024 * 1024) ++ " GB"

/-- Models `str::parse::<u64>`: an optional leading `+`, then decimal digits
only, rejecting the empty digit string and values at or above `2^64`. -/
def parseU64 (s : String) : Option Nat :=
  let cs := match s.data with
    | '+' :: rest => rest
    | cs => cs
  if cs = [] ∨ ¬ cs.all Char.isDigit then none
  else
    let v := cs.foldl (fun a c => a * 10 + (c.toNat - 48)) 0
    if v < 2 ^ 64 then some v else none

/-- `format_number` of `src/utils.rs` lines 48-62 (the identical local copy
in `src/components/execution_plans.rs` lines 31-45 is the same function). -/
def format_number (num_str : String) : String :=
  match parseU64 num_str with
  | some num =>
    if 1000000000 ≤ num then fmt2N num 1000000000 ++ "B"
    else if 1000000 ≤ num then fmt2N num 1000000 ++ "M"
    else if 1000 ≤ num then fmt2N num 1000 ++ "K"
    else toString num
  | none => num_str

/-- An exact decimal value `num / 10 ^ exp`, the result of parsing a decimal
`f64` literal.  Kept as a scaled integer (never reduced) so every operation
is plain `Int`/`Nat` arithmetic that the kernel can evaluate. -/
structure Dec10 where
  num : Int
  exp : Nat
  deriving Repr, DecidableEq

/-- `c ≤ d` for a decimal `d` and a natural constant `c`. -/
def Dec10.geNat (d : Dec10) (c : Nat) : Bool :=
  (c : Int) * (10 : Int) ^ d.exp ≤ d.num

/-- Models `str::parse::<f64>` on the decimal-literal fragment: optional
sign, digits with an optional fraction part, and an optional decimal
exponent.  (`inf`/`NaN` spellings never occur in metric values and are
rejected by the model; the parsed value is kept exact rather than rounded
to 53 bits.) -/
def parseF64 (s : String) : Option Dec10 :=
  let (neg, cs) : Bool × List Char :=
    match s.data with
    | '+' :: rest => (false, rest)
    | '-' :: rest => (true, rest)
    | rest => (false, rest)
  let (ip, ic, r1) := parseDigits cs 0 0
  let (fp, fc, r2) : Nat × Nat × List Char :=
    match r1 with
    | '.' :: r => parseDigits r 0 0
    | _ => (0, 0, r1)
  let hasDot : Bool := match r1 with
    | '.' :: _ => true
    | _ => false
  if ic + fc = 0 then none
  else
    let m : Int := ip * 10 ^ fc + fp
    let mant : Dec10 := ⟨if neg then -m else m, fc⟩
    let r2' := if hasDot then r2 else r1
    match r2' with
    | [] => some mant
    | 'e' :: rest => parseF64Exp mant rest
    | 'E' :: rest => parseF64Exp mant rest
    | _ => none
where
  /-- Parse the signed exponent digits and scale the mantissa by `10^e`. -/
  parseF64Exp (mant : Dec10) (cs : List Char) : Option Dec10 :=
    let (eneg, ds) : Bool × List Char :=
      match cs with
      | '+' :: rest => (false, rest)
      | '-' :: rest => (true, rest)
      | rest => (false, rest)
    match parseDigits ds 0 0 with
    | (_, 0, _) => none
    | (e, _ + 1, r) =>
      if r = [] then
        some (if eneg then ⟨mant.num, mant.exp + e⟩ else ⟨mant.num * 10 ^ e, mant.exp⟩)
      else none

/-- Models `str::ends_with` for string patterns. -/
def endsWithStr (s suffix : String) : Bool :=
  suffix.data.isSuffixOf s.data

/-- Fueled loop of `str::trim_end_matches`: repeatedly strip one trailing
occurrence of the two-character pattern `"ns"`. -/
def trimNsAux : Nat → List Char → List Char
  | 0, l => l
  | f + 1, l =>
    if ['n', 's'].isSuffixOf l then trimNsAux f (l.take (l.length - 2)) else l

/-- Models `duration_str.trim_end_matches("ns")`. -/
def trimNs (s : String) : String :=
  String.mk (trimNsAux s.length s.data)

/-- Render `d / divisor` with two decimal places (`format!("{:.2}", _)` on
the exact quotient); all call sites pass positive values. -/
def fmt2Dec (d : Dec10) (divisor : Nat) : String :=
  let h := roundHalfEvenN (d.num.toNat * 100) ((10 : Nat) ^ d.exp * divisor)
  toString (h / 100) ++ "." ++ pad2 (h % 100)

/-- Models `ns as u64` on an `f64`: truncate toward zero, saturating into
`[0, 2^64)`. -/
def f64ToU64 (d : Dec10) : Nat :=
  if d.num ≤ 0 then 0 else min (d.num.toNat / 10 ^ d.exp) (2 ^ 64 - 1)

/-- `format_duration` of `src/utils.rs` lines 26-46 (the identical local
copy in `src/components/execution_plans.rs` lines 9-29 is the same
function). -/
def format_duration (duration_str : String) : String :=
  if endsWithStr duration_str "ms" then duration_str
  else if endsWithStr duration_str "ns" then
    match parseF64 (trimNs duration_str) with
    | some ns =>
      if ns.geNat 1000000000 then fmt2Dec ns 1000000000 ++ "s"
      else if ns.geNat 1000000 then fmt2Dec ns 1000000 ++ "ms"
      else if ns.geNat 1000 then fmt2Dec ns 1000 ++ "μs"
      else toString (f64ToU64 ns) ++ "ns"
    | none => duration_str
  else duration_str

/-! ## Metric display (`src/components/execution_plans.rs` lines 109-132) -/

/-- Models `str::contains` for string patterns. -/
def strContains (hay needle : String) : Bool :=
  (List.range (hay.data.length + 1)).any (fun i => needle.data.isPrefixOf (hay.data.drop i))

/-- The metric-label-driven dispatch of `ExecutionPlanNodeComponent`
(`execution_plans.rs` lines 120-128): duration if the key contains `"time"`
or `"elapsed"`, bytes (of the value parsed as `u64`, parse failure coerced
to `0`) if it contains `"bytes"`, number if it contains `"rows"`, else the
raw value. -/
def dispatchMetric (key value : String) : String :=
  if strContains key "time" ∨ strContains key "elapsed" then format_duration value
  else if strContains key "bytes" then format_bytes ((parseU64 value).getD 0)
  else if strContains key "rows" then format_number value
  else value

/-- Models `all_metrics.sort_by(|a, b| a.0.cmp(&b.0))`: a stable ascending
sort by metric name (an already-placed `q` stays before a later-inserted `p`
exactly when `q`'s key is strictly smaller). -/
def sortMetrics (l : List (String × String)) : List (String × String) :=
  stableSortBy (fun q p => q.1 < p.1) l

/-- The displayed metric list of a node (`execution_plans.rs` lines
116-132): dispatch each metric by its name, then sort by name. -/
def formatNodeMetrics (node : ExecutionPlanNode) : List (String × String) :=
  sortMetrics (node.metrics.map (fun kv => (kv.1, dispatchMetric kv.1 kv.2)))

/-! ## Plan selection (`src/components/execution_plans.rs` lines 405-465) -/

/-- The auto-selection `Effect` (`execution_plans.rs` lines 413-425): when a
plan list is loaded and non-empty, an empty or stale selection is replaced
by the first plan's id, and any other selection is left unchanged. -/
def autoSelect : List ExecutionPlan → String → String
  | [], current => current
  | p :: ps, current =>
    if current = "" ∨ current ∉ (p :: ps).map ExecutionPlan.id then p.id else current

/-- A button-triggered refresh (`execution_plans.rs` lines 459-462 plus the
auto-selection effect): the click handler sets the selection to `""`; the
effect then re-runs against the still-displayed old list (selecting its
first plan), and once the fresh list replaces it the effect runs again.
The pre-click selection `sel` is discarded by the click handler — the
result does not depend on it. -/
def refreshThenLoad (old new : List ExecutionPlan) (sel : String) : String :=
  autoSelect new (autoSelect old "")

/-! ## Concrete wire inputs used by the theorems below -/

/-- A leaf plan-node document. -/
def leafJson (nm : String) : Json :=
  Json.obj [("name", Json.str nm), ("schema", Json.arr []), ("metrics", Json.obj [])]

/-- The decode of `leafJson nm`. -/
def leafNode (nm : String) : ExecutionPlanNode :=
  .mk nm [] none [] []

/-- A wire record (one pair value) with the given plan document, inner id
and timestamp; the plan document is double-encoded as a JSON string, as on
the wire. -/
def recordVal (planJ : Json) (innerId : String) (t : Nat) : String :=
  Json.render (Json.obj [("plan", Json.str (Json.render planJ)), ("id", Json.str innerId),
                         ("created_at", Json.num t)])

/-- A wire record that additionally carries a `stats` string. -/
def recordValStats (planJ : Json) (innerId : String) (t : Nat) (stats : String) : String :=
  Json.render (Json.obj [("plan", Json.str (Json.render planJ)), ("id", Json.str innerId),
                         ("created_at", Json.num t), ("stats", Json.str stats)])

/-- The plan decoded from a leaf record under wire key `key`. -/
def leafPlan (key nm : String) (t : Nat) : ExecutionPlan :=
  { id := key, plan := leafNode nm, created_at := t, formatted_time := formatTime t,
    stats := none }

/-- A parent node whose `children` field holds a native JSON object (not a
JSON-encoded string). -/
def parentObjChildJson : Json :=
  Json.obj [("name", Json.str "Parent"), ("schema", Json.arr []), ("metrics", Json.obj []),
            ("children", Json.arr [leafJson "Child"])]

/-- The same parent with the child double-encoded as a JSON string, as the
wire format produces it. -/
def parentStrChildJson : Json :=
  Json.obj [("name", Json.str "Parent"), ("schema", Json.arr []), ("metrics", Json.obj []),
            ("children", Json.arr [Json.str (Json.render (leafJson "Child"))])]

/-! ## Helper lemmas -/

theorem mem_insertBy {keep : α → α → Bool} {p x : α} {l : List α} :
    x ∈ insertBy keep p l ↔ x = p ∨ x ∈ l := by
  induction l with
  | nil => simp [insertBy]
  | cons q qs ih =>
    simp only [insertBy]
    split
    · simp only [List.mem_cons, ih]
      tauto
    · simp only [List.mem_cons]

theorem pairwise_insertBy {keep : α → α → Bool} {R : α → α → Prop}
    (htrans : Transitive R) {p : α}
    (h1 : ∀ q, keep q p = true → R q p) (h2 : ∀ q, keep q p = false → R p q)
    {l : List α} (hl : l.Pairwise R) : (insertBy keep p l).Pairwise R := by
  induction l with
  | nil => simp [insertBy]
  | cons q qs ih =>
    rcases List.pairwise_cons.mp hl with ⟨hq, hqs⟩
    simp only [insertBy]
    split
    case isTrue hkeep =>
      refine List.pairwise_cons.mpr ⟨?_, ih hqs⟩
      intro x hx
      rcases mem_insertBy.mp hx with rfl | hx
      · exact h1 q hkeep
      · exact hq x hx
    case isFalse hkeep =>
      have hk : keep q p = false := by simpa using hkeep
      refine List.pairwise_cons.mpr ⟨?_, hl⟩
      intro x hx
      rcases List.mem_cons.mp hx with hxq | hx
      · rw [hxq]
        exact h2 q hk
      · exact htrans (h2 q hk) (hq x hx)

theorem pairwise_stableSortBy {keep : α → α → Bool} {R : α → α → Prop}
    (htrans : Transitive R)
    (h1 : ∀ q p, keep q p = true → R q p) (h2 : ∀ q p, keep q p = false → R p q)
    (l : List α) : (stableSortBy keep l).Pairwise R := by
  induction l with
  | nil => simp [stableSortBy]
  | cons p l ih =>
    exact pairwise_insertBy htrans (fun q => h1 q p) (fun q => h2 q p) ih

theorem perm_insertBy (keep : α → α → Bool) (p : α) (l : List α) :
    (insertBy keep p l).Perm (p :: l) := by
  induction l with
  | nil => exact List.Perm.refl _
  | cons q qs ih =>
    simp only [insertBy]
    split
    · exact (ih.cons q).trans (List.Perm.swap p q qs)
    · exact List.Perm.refl _

theorem perm_stableSortBy (keep : α → α → Bool) (l : List α) :
    (stableSortBy keep l).Perm l := by
  induction l with
  | nil => exact List.Perm.refl _
  | cons p l ih =>
    exact (perm_insertBy keep p (stableSortBy keep l)).trans (ih.cons p)

theorem filter_insertBy_pos {keep : α → α → Bool} {f : α → Bool} {p : α}
    (hp : f p = true) (hk : ∀ q, f q = true → keep q p = false) (l : List α) :
    (insertBy keep p l).filter f = p :: l.filter f := by
  induction l with
  | nil => simp [insertBy, hp]
  | cons q qs ih =>
    simp only [insertBy]
    split
    case isTrue hkeep =>
      have hfq : f q = false := by
        cases hfq : f q
        · rfl
        · rw [hk q hfq] at hkeep
          exact absurd hkeep (by simp)
      simp [List.filter_cons, hfq, ih]
    case isFalse hkeep =>
      simp [List.filter_cons, hp]

theorem filter_insertBy_neg {keep : α → α → Bool} {f : α → Bool} {p : α}
    (hp : f p = false) (l : List α) :
    (insertBy keep p l).filter f = l.filter f := by
  induction l with
  | nil => simp [insertBy, hp]
  | cons q qs ih =>
    simp only [insertBy]
    split
    · simp only [List.filter_cons, ih]
    · simp [List.filter_cons, hp]

theorem filter_stableSortBy {keep : α → α → Bool} {f : α → Bool}
    (hk : ∀ q p, f q = true → f p = true → keep q p = false) (l : List α) :
    (stableSortBy keep l).filter f = l.filter f := by
  induction l with
  | nil => rfl
  | cons p l ih =>
    show (insertBy keep p (stableSortBy keep l)).filter f = _
    cases hp : f p
    · rw [filter_insertBy_neg hp, ih, List.filter_cons, hp]
      simp
    · rw [filter_insertBy_pos hp (fun q hq => hk q p hq hp), ih, List.filter_cons, hp]
      simp

theorem decodeAll_cons (kv : String × String) (rest : List (String × String)) :
    decodeAll (kv :: rest) =
      match decodeRecord kv.1 kv.2 with
      | .error e => .error e
      | .ok p =>
        match decodeAll rest with
        | .error e => .error e
        | .ok ps => .ok (p :: ps) := by
  simp only [decodeAll]
  cases decodeRecord kv.1 kv.2 <;> cases decodeAll rest <;> rfl

theorem decodeAll_isOk_iff (rs : List (String × String)) :
    (decodeAll rs).isOk = true ↔ ∀ kv ∈ rs, (decodeRecord kv.1 kv.2).isOk = true := by
  induction rs with
  | nil => simp [decodeAll, Except.isOk, Except.toBool]
  | cons kv rest ih =>
    rw [decodeAll_cons]
    cases h : decodeRecord kv.1 kv.2 with
    | error e =>
      constructor
      · intro hok
        exact absurd hok (by simp [Except.isOk, Except.toBool])
      · intro hall
        have := hall kv (by simp)
        rw [h] at this
        exact absurd this (by simp [Except.isOk, Except.toBool])
    | ok p =>
      cases hrest : decodeAll rest with
      | error e =>
        constructor
        · intro hok
          exact absurd hok (by simp [Except.isOk, Except.toBool])
        · intro hall
          have htl := ih.mpr (fun kv' hkv' => hall kv' (List.mem_cons_of_mem _ hkv'))
          rw [hrest] at htl
          exact absurd htl (by simp [Except.isOk, Except.toBool])
      | ok ps =>
        constructor
        · intro _ kv' hkv'
          rcases List.mem_cons.mp hkv' with rfl | hkv'
          · simp [h, Except.isOk, Except.toBool]
          · exact ih.mp (by simp [hrest, Except.isOk, Except.toBool]) kv' hkv'
        · intro _
          simp [Except.isOk, Except.toBool]

theorem isOk_map {f : α → β} {e : Except String α} :
    (Except.map f e).isOk = e.isOk := by
  cases e <;> rfl

theorem decodeStringList_map_str (ss : List String) :
    decodeStringList (ss.map Json.str) = .ok ss := by
  induction ss with
  | nil => rfl
  | cons s ss ih => simp [decodeStringList, ih, Except.map]

theorem decodeStringList_ok_str {es : List Json} {ss : List String}
    (h : decodeStringList es = .ok ss) : es = ss.map Json.str := by
  induction es generalizing ss with
  | nil =>
    simp only [decodeStringList] at h
    cases h
    rfl
  | cons e es ih =>
    cases e with
    | str s =>
      simp only [decodeStringList] at h
      cases hrec : decodeStringList es with
      | error msg => rw [hrec] at h; exact absurd h (by simp [Except.map])
      | ok ts =>
        rw [hrec] at h
        simp only [Except.map] at h
        cases h
        simp [ih hrec]
    | null => exact absurd h (by simp [decodeStringList])
    | bool b => exact absurd h (by simp [decodeStringList])
    | num n => exact absurd h (by simp [decodeStringList])
    | arr es2 => exact absurd h (by simp [decodeStringList])
    | obj fs => exact absurd h (by simp [decodeStringList])

theorem endsWith_ns_not_ms {s : String} (h : endsWithStr s "ns" = true) :
    endsWithStr s "ms" = false := by
  unfold endsWithStr at h ⊢
  rcases List.isSuffixOf_iff_suffix.mp h with ⟨t1, ht1⟩
  by_contra hms
  rw [Bool.not_eq_false] at hms
  rcases List.isSuffixOf_iff_suffix.mp hms with ⟨t2, ht2⟩
  have heq : t1 ++ ("ns" : String).data = t2 ++ ("ms" : String).data := ht1.trans ht2.symm
  have hlen : t1.length = t2.length := by
    have := congrArg List.length heq
    simp only [List.length_append, List.length_cons, List.length_nil] at this
    omega
  have := List.append_inj_right heq hlen
  simp at this

theorem buildPlan_ok_elim {key : String} {resp : ExecutionPlanResponse}
    {plan : ExecutionPlan} (h : buildPlan key resp = .ok plan) :
    plan.id = key ∧ plan.created_at = resp.created_at
      ∧ plan.formatted_time = formatTime resp.created_at
      ∧ plan.stats = resp.stats.bind decodeStats
      ∧ ∃ pj node, Json.parse resp.plan = some pj
          ∧ decodeNode (resp.plan.length + 1) pj = .ok node ∧ plan.plan = node := by
  unfold buildPlan at h
  split at h
  next => exact absurd h (by simp)
  next pj hp =>
    split at h
    next e hd => exact absurd h (by simp)
    next node hd =>
      split at h
      next ht =>
        cases h
        exact ⟨rfl, rfl, rfl, rfl, pj, node, hp, hd, rfl⟩
      next ht => exact absurd h (by simp)

theorem decodeRecord_ok_elim {key value : String} {plan : ExecutionPlan}
    (h : decodeRecord key value = .ok plan) :
    ∃ j resp, Json.parse value = some j ∧ decodeResponse j = .ok resp
      ∧ buildPlan key resp = .ok plan := by
  unfold decodeRecord at h
  split at h
  next => exact absurd h (by simp)
  next j hp =>
    split at h
    next e hr => exact absurd h (by simp)
    next resp hr => exact ⟨j, resp, hp, hr, h⟩

theorem buildPlan_isOk (key : String) (resp : ExecutionPlanResponse) :
    (buildPlan key resp).isOk =
      (match Json.parse resp.plan with
       | none => false
       | some pj =>
         match decodeNode (resp.plan.length + 1) pj with
         | .error _ => false
         | .ok _ => timestampValid resp.created_at) := by
  unfold buildPlan
  split
  next => rfl
  next pj hp =>
    split
    next e hd => rfl
    next node hd =>
      by_cases ht : timestampValid resp.created_at = true
      · simp [ht, Except.isOk, Except.toBool]
      · simp [ht, Except.isOk, Except.toBool]

theorem deserialize_children_map_str (fuel : Nat) (ss : List String) :
    deserialize_children fuel (Json.arr (ss.map Json.str))
      = Except.ok (ss.filterMap (parseChild fuel)) := by
  have hrw : deserialize_children fuel (Json.arr (ss.map Json.str))
      = (decodeStringList (ss.map Json.str)).map
          (fun l => l.filterMap (parseChildWith (decodeNode fuel))) := rfl
  rw [hrw, decodeStringList_map_str]
  rfl

/-! ## Claims -/

/-- C1, counterexample: the claim says a pair whose record JSON fails to
parse is recorded as a per-key error and skipped while decoding continues,
with a hard failure only when nothing could be decoded.  On the code, a
batch holding one perfectly decodable record and one malformed record hard
fails as a whole, even though the good record decodes on its own. -/
theorem C1_counterexample :
    parse_execution_plans
        [("a", recordVal (leafJson "Scan") "x" 10), ("bad", "notjson")]
      = Except.error "Failed to parse execution plan response for key bad"
    ∧ parse_execution_plans [("a", recordVal (leafJson "Scan") "x" 10)]
      = Except.ok [leafPlan "a" "Scan" 10] :=
  ⟨rfl, rfl⟩

/-- C1, amended: `parse_execution_plans` is fail-fast, not partial-failure
tolerant: it returns a list exactly when every record of the batch decodes
(the first failing record aborts the whole batch with a hard failure), and
in the all-ok case it returns the stably descending-sorted list of all
decoded plans; no side list of per-key errors exists. -/
theorem C1_fail_fast :
    (∀ rs : List (String × String),
        (parse_execution_plans rs).isOk = true ↔
          ∀ kv ∈ rs, (decodeRecord kv.1 kv.2).isOk = true)
    ∧ ∀ rs l, decodeAll rs = Except.ok l →
        parse_execution_plans rs = Except.ok (sortPlansDesc l) := by
  constructor
  · intro rs
    rw [show parse_execution_plans rs = (decodeAll rs).map sortPlansDesc from rfl,
        isOk_map]
    exact decodeAll_isOk_iff rs
  · intro rs l h
    rw [show parse_execution_plans rs = (decodeAll rs).map sortPlansDesc from rfl, h]
    rfl

/-- C1, witness: the fail-fast theorem applied to a concrete one-record
batch. -/
theorem C1_fail_fast_witness :
    parse_execution_plans [("a", recordVal (leafJson "Scan") "x" 10)]
      = Except.ok (sortPlansDesc [leafPlan "a" "Scan" 10]) :=
  C1_fail_fast.2 [("a", recordVal (leafJson "Scan") "x" 10)] [leafPlan "a" "Scan" 10] rfl

/-- C2, counterexample: the claim says the decoder accepts the `children`
field both as native JSON objects and as JSON-encoded strings, trying the
object parse first.  On the code, a node whose `children` array holds a
native object fails to decode at all, while the same child double-encoded
as a string decodes. -/
theorem C2_counterexample :
    (decodeNode 100 parentObjChildJson).isOk = false
    ∧ decodeNode 100 parentStrChildJson
      = Except.ok (.mk "Parent" [] none [] [leafNode "Child"])
    ∧ (deserialize_children 100 (Json.arr [leafJson "Child"])).isOk = false
    ∧ deserialize_children 100 (Json.arr [Json.str (Json.render (leafJson "Child"))])
      = Except.ok [leafNode "Child"] :=
  ⟨rfl, rfl, rfl, rfl⟩

/-- C2, amended: the decoder accepts the `children` field in exactly one
wire form — an array of JSON-encoded strings, each parsed as its own JSON
document.  There is no direct-object fallback: an array containing any
non-string element fails the whole node's deserialization. -/
theorem C2_children_strings_only :
    (∀ fuel es, (∃ e ∈ es, ∀ s, e ≠ Json.str s) →
        (deserialize_children fuel (Json.arr es)).isOk = false)
    ∧ ∀ fuel (ss : List String), deserialize_children fuel (Json.arr (ss.map Json.str))
        = Except.ok (ss.filterMap (parseChild fuel)) := by
  constructor
  · rintro fuel es ⟨e, he, hne⟩
    have hrw : deserialize_children fuel (Json.arr es)
        = (decodeStringList es).map
            (fun l => l.filterMap (parseChildWith (decodeNode fuel))) := rfl
    rw [hrw]
    cases h : decodeStringList es with
    | error msg => rfl
    | ok ss =>
      have := decodeStringList_ok_str h
      subst this
      rcases List.mem_map.mp he with ⟨s, _, hs⟩
      exact absurd hs.symm (hne s)
  · exact deserialize_children_map_str

/-- C2, witness: the string-form equation applied to a concrete singleton
children list, and the non-string rejection applied to a `null` element. -/
theorem C2_children_strings_only_witness :
    (deserialize_children 100 (Json.arr [Json.null])).isOk = false
    ∧ deserialize_children 100 (Json.arr ([Json.render (leafJson "Child")].map Json.str))
      = Except.ok ([Json.render (leafJson "Child")].filterMap (parseChild 100)) :=
  ⟨C2_children_strings_only.1 100 [Json.null]
      ⟨Json.null, by simp, fun s => by simp⟩,
    C2_children_strings_only.2 100 [Json.render (leafJson "Child")]⟩

/-- C3: the list returned by `parse_execution_plans` is sorted descending by
`created_at`; ties keep the order of the decoded input (the filter at every
timestamp is unchanged by the sort); and the two-record batch with
`created_at` 10 under key `"a"` and 20 under key `"b"` decodes to the order
`[b, a]`. -/
theorem C3_sorted_desc_stable :
    (∀ rs l, parse_execution_plans rs = Except.ok l →
        l.Pairwise (fun a b => b.created_at ≤ a.created_at)
        ∧ ∃ l₀, decodeAll rs = Except.ok l₀ ∧ l = sortPlansDesc l₀
            ∧ ∀ t, l.filter (fun p => p.created_at == t)
                = l₀.filter (fun p => p.created_at == t))
    ∧ parse_execution_plans
        [("a", recordVal (leafJson "Scan") "a" 10),
         ("b", recordVal (leafJson "Scan") "b" 20)]
      = Except.ok [leafPlan "b" "Scan" 20, leafPlan "a" "Scan" 10] := by
  constructor
  · intro rs l h
    rw [show parse_execution_plans rs = (decodeAll rs).map sortPlansDesc from rfl] at h
    cases hd : decodeAll rs with
    | error e => rw [hd] at h; exact absurd h (by simp [Except.map])
    | ok l₀ =>
      rw [hd] at h
      simp only [Except.map] at h
      cases h
      refine ⟨?_, l₀, rfl, rfl, ?_⟩
      · refine pairwise_stableSortBy ?_ ?_ ?_ l₀
        · intro a b c hab hbc
          exact le_trans hbc hab
        · intro q p hk
          simp only [decide_eq_true_eq] at hk
          exact le_of_lt hk
        · intro q p hk
          simp only [decide_eq_false_iff_not, not_lt] at hk
          exact hk
      · intro t
        refine filter_stableSortBy ?_ l₀
        intro q p hq hp
        simp only [beq_iff_eq] at hq hp
        simp [hq, hp]
  · rfl

/-- C3, witness: the sortedness-and-stability statement applied to the
concrete two-record batch of the claim. -/
theorem C3_sorted_desc_stable_witness :
    [leafPlan "b" "Scan" 20, leafPlan "a" "Scan" 10].Pairwise
        (fun a b => b.created_at ≤ a.created_at)
    ∧ ∃ l₀, decodeAll
          [("a", recordVal (leafJson "Scan") "a" 10),
           ("b", recordVal (leafJson "Scan") "b" 20)] = Except.ok l₀
        ∧ [leafPlan "b" "Scan" 20, leafPlan "a" "Scan" 10] = sortPlansDesc l₀
        ∧ ∀ t, [leafPlan "b" "Scan" 20, leafPlan "a" "Scan" 10].filter
              (fun p => p.created_at == t)
            = l₀.filter (fun p => p.created_at == t) :=
  C3_sorted_desc_stable.1
    [("a", recordVal (leafJson "Scan") "a" 10),
     ("b", recordVal (leafJson "Scan") "b" 20)]
    [leafPlan "b" "Scan" 20, leafPlan "a" "Scan" 10] rfl

/-- C4, counterexample: the claim says that after a refresh a still-present
previous selection is preserved unchanged.  On the code, the Refresh button
clears the selection before the new list arrives, so with `"b"` selected
(and still present in the refreshed list) the selection after the refresh
is `"a"` (the newest plan), not `"b"` — even though the auto-selection
effect alone would have preserved `"b"`. -/
theorem C4_counterexample :
    "b" ∈ ([leafPlan "a" "Scan" 20, leafPlan "b" "Scan" 10].map ExecutionPlan.id)
    ∧ refreshThenLoad [leafPlan "a" "Scan" 20, leafPlan "b" "Scan" 10]
        [leafPlan "a" "Scan" 20, leafPlan "b" "Scan" 10] "b" = "a"
    ∧ "a" ≠ "b"
    ∧ autoSelect [leafPlan "a" "Scan" 20, leafPlan "b" "Scan" 10] "b" = "b" :=
  ⟨by decide, rfl, by decide, rfl⟩

/-- C4, amended: the auto-selection effect alone behaves as the claim says
(a non-empty still-present selection is preserved; an empty or stale one is
replaced by the first plan's id), but a button refresh first clears the
selection: it becomes the first plan of the pre-refresh list, and after the
new list arrives it is kept exactly when that first plan's id is still
present (else the new first plan is selected).  The pre-refresh selection
is discarded, so it survives a refresh only if it was already the first
plan. -/
theorem C4_selection :
    (∀ plans sel, sel ≠ "" → sel ∈ plans.map ExecutionPlan.id →
        autoSelect plans sel = sel)
    ∧ (∀ p ps sel, sel ∉ (p :: ps).map ExecutionPlan.id →
        autoSelect (p :: ps) sel = p.id)
    ∧ (∀ p ps new sel, refreshThenLoad (p :: ps) new sel = autoSelect new p.id)
    ∧ (∀ p ps q qs sel, p.id ≠ "" → p.id ∈ (q :: qs).map ExecutionPlan.id →
        refreshThenLoad (p :: ps) (q :: qs) sel = p.id)
    ∧ (∀ p ps q qs sel, p.id ∉ (q :: qs).map ExecutionPlan.id →
        refreshThenLoad (p :: ps) (q :: qs) sel = q.id) := by
  have hkeep : ∀ plans sel, sel ≠ "" → sel ∈ plans.map ExecutionPlan.id →
      autoSelect plans sel = sel := by
    intro plans sel hne hmem
    cases plans with
    | nil => simp at hmem
    | cons p ps =>
      simp only [autoSelect]
      rw [if_neg]
      push_neg
      exact ⟨hne, hmem⟩
  have hfirst : ∀ p ps sel, sel ∉ (p :: ps).map ExecutionPlan.id →
      autoSelect (p :: ps) sel = p.id := by
    intro p ps sel hmem
    simp only [autoSelect]
    rw [if_pos (Or.inr hmem)]
  have hrefresh : ∀ p ps new sel, refreshThenLoad (p :: ps) new sel = autoSelect new p.id := by
    intro p ps new sel
    rfl
  refine ⟨hkeep, hfirst, hrefresh, ?_, ?_⟩
  · intro p ps q qs sel hne hmem
    rw [hrefresh p ps (q :: qs) sel]
    exact hkeep (q :: qs) p.id hne hmem
  · intro p ps q qs sel hmem
    rw [hrefresh p ps (q :: qs) sel]
    exact hfirst q qs p.id hmem

/-- C4, witness: the refresh path applied to concrete lists — the
pre-refresh first plan `"a"` is still present in the new list, so it is the
selection after the refresh. -/
theorem C4_selection_witness :
    refreshThenLoad [leafPlan "a" "Scan" 20]
        [leafPlan "a" "Scan" 20, leafPlan "b" "Scan" 10] "b" = "a" :=
  C4_selection.2.2.2.1 (leafPlan "a" "Scan" 20) [] (leafPlan "a" "Scan" 20)
    [leafPlan "b" "Scan" 10] "b" (by decide) (by decide)

/-- C5, counterexample: the claim says every malformed input comes back
unchanged from every formatting path, including the metric-label-driven
dispatch.  On the code, a bytes-labelled metric whose value does not parse
as `u64` is coerced to `0` and rendered `"0 B"`, not returned unchanged. -/
theorem C5_counterexample :
    dispatchMetric "bytes_scanned" "garbage" = "0 B" ∧ "0 B" ≠ "garbage" :=
  ⟨rfl, by decide⟩

/-- C5, amended: `formatBytes`, `formatDuration` and `formatNumber` are
total and return a malformed input string unchanged; the metric dispatch
returns the raw value unchanged for labels without a formatting keyword,
but for a bytes-labelled metric an unparsable value is coerced to `0` and
rendered `"0 B"` instead of being passed through. -/
theorem C5_malformed_passthrough :
    (∀ s, parseU64 s = none → format_number s = s)
    ∧ (∀ s, endsWithStr s "ms" = false → endsWithStr s "ns" = false →
        format_duration s = s)
    ∧ (∀ s, endsWithStr s "ns" = true → parseF64 (trimNs s) = none →
        format_duration s = s)
    ∧ (∀ k v, strContains k "time" = false → strContains k "elapsed" = false →
        strContains k "bytes" = false → strContains k "rows" = false →
        dispatchMetric k v = v)
    ∧ (∀ k v, strContains k "time" = false → strContains k "elapsed" = false →
        strContains k "bytes" = true → parseU64 v = none →
        dispatchMetric k v = "0 B") := by
  refine ⟨?_, ?_, ?_, ?_, ?_⟩
  · intro s h
    unfold format_number
    rw [h]
  · intro s hms hns
    unfold format_duration
    rw [hms, hns]
    simp
  · intro s hns hparse
    unfold format_duration
    rw [endsWith_ns_not_ms hns, hns, hparse]
    simp
  · intro k v h1 h2 h3 h4
    unfold dispatchMetric
    rw [h1, h2, h3, h4]
    simp
  · intro k v h1 h2 h3 hv
    unfold dispatchMetric
    rw [h1, h2, h3, hv]
    simp
    rfl

/-- C5, witness: the bytes-dispatch deviation and the number passthrough
applied at concrete malformed inputs. -/
theorem C5_malformed_passthrough_witness :
    format_number "12x" = "12x" ∧ dispatchMetric "bytes_read" "zz" = "0 B" :=
  ⟨C5_malformed_passthrough.1 "12x" rfl,
    C5_malformed_passthrough.2.2.2.2 "bytes_read" "zz" rfl rfl rfl rfl⟩

/-- C6: failures of nested components degrade locally. A children entry
whose string fails to parse as an `ExecutionPlanNode` is dropped from the
children list (deleting it from the wire array leaves the decode unchanged)
while the parent node still parses; and a `stats` string that fails to
parse yields `stats = none` for a plan that is still returned — the stats
field never decides whether the record decodes. -/
theorem C6_nested_failures_degrade_locally :
    (∀ fuel (ss₁ : List String) s ss₂, parseChild fuel s = none →
        deserialize_children fuel (Json.arr ((ss₁ ++ s :: ss₂).map Json.str))
          = deserialize_children fuel (Json.arr ((ss₁ ++ ss₂).map Json.str)))
    ∧ (∀ key resp plan s, resp.stats = some s → decodeStats s = none →
        buildPlan key resp = Except.ok plan → plan.stats = none)
    ∧ (∀ key p i c st1 st2,
        (buildPlan key ⟨p, i, c, st1⟩).isOk = (buildPlan key ⟨p, i, c, st2⟩).isOk) := by
  refine ⟨?_, ?_, ?_⟩
  · intro fuel ss₁ s ss₂ h
    rw [deserialize_children_map_str, deserialize_children_map_str]
    simp [List.filterMap_append, List.filterMap_cons, h]
  · intro key resp plan s hst hdec hok
    have := (buildPlan_ok_elim hok).2.2.2.1
    rw [this, hst]
    simp [hdec]
  · intro key p i c st1 st2
    rw [buildPlan_isOk, buildPlan_isOk]

/-- C6, witness: a malformed children string dropped from a concrete array,
and a concrete record whose malformed stats string yields a plan with
`stats = none`. -/
theorem C6_nested_failures_degrade_locally_witness :
    deserialize_children 100
        (Json.arr (([] ++ "notjson" :: [Json.render (leafJson "Child")]).map Json.str))
      = deserialize_children 100
          (Json.arr (([] ++ [Json.render (leafJson "Child")]).map Json.str))
    ∧ (leafPlan "k" "Scan" 10).stats = none :=
  ⟨C6_nested_failures_degrade_locally.1 100 [] "notjson"
      [Json.render (leafJson "Child")] rfl,
    C6_nested_failures_degrade_locally.2.1 "k"
      ⟨Json.render (leafJson "Scan"), "x", 10, some "bad"⟩
      (leafPlan "k" "Scan" 10) "bad" rfl rfl rfl⟩

/-- C7: a string suffixed `ms` passes through `format_duration` unchanged;
a string suffixed `ns` whose (fully `ns`-trimmed) numeric part parses is
rescaled at the 1000-power thresholds — at least `1e9` rendered in seconds,
at least `1e6` in milliseconds, at least `1e3` in microseconds, else as a
truncated integer nanosecond count — and in particular
`format_duration "1500000000ns" = "1.50s"` and
`format_duration "500ms" = "500ms"`. -/
theorem C7_format_duration_thresholds :
    (∀ s, endsWithStr s "ms" = true → format_duration s = s)
    ∧ (∀ s d, endsWithStr s "ns" = true → parseF64 (trimNs s) = some d →
        format_duration s =
          (if d.geNat 1000000000 then fmt2Dec d 1000000000 ++ "s"
           else if d.geNat 1000000 then fmt2Dec d 1000000 ++ "ms"
           else if d.geNat 1000 then fmt2Dec d 1000 ++ "μs"
           else toString (f64ToU64 d) ++ "ns"))
    ∧ format_duration "1500000000ns" = "1.50s"
    ∧ format_duration "500ms" = "500ms" := by
  refine ⟨?_, ?_, rfl, rfl⟩
  · intro s h
    unfold format_duration
    rw [h]
    simp
  · intro s d hns hp
    unfold format_duration
    rw [endsWith_ns_not_ms hns, hns, hp]
    simp

/-- C7, witness: the threshold equation applied at the concrete input
`"1500000000ns"`. -/
theorem C7_format_duration_thresholds_witness :
    format_duration "1500000000ns" =
      (if Dec10.geNat ⟨1500000000, 0⟩ 1000000000
       then fmt2Dec ⟨1500000000, 0⟩ 1000000000 ++ "s"
       else if Dec10.geNat ⟨1500000000, 0⟩ 1000000
       then fmt2Dec ⟨1500000000, 0⟩ 1000000 ++ "ms"
       else if Dec10.geNat ⟨1500000000, 0⟩ 1000
       then fmt2Dec ⟨1500000000, 0⟩ 1000 ++ "μs"
       else toString (f64ToU64 ⟨1500000000, 0⟩) ++ "ns") :=
  C7_format_duration_thresholds.2.1 "1500000000ns" ⟨1500000000, 0⟩ rfl rfl

/-- C8: `format_bytes` selects the unit at the 1024 boundaries — below 1024
whole bytes, then KB, MB and GB, each rendered with two decimal places of
the exact quotient — and in particular `format_bytes 1023 = "1023 B"`,
`format_bytes 1024 = "1.00 KB"` and `format_bytes 1048576 = "1.00 MB"`. -/
theorem C8_format_bytes_units :
    (∀ b : Nat,
        (b < 1024 → format_bytes b = toString b ++ " B")
        ∧ (1024 ≤ b → b < 1024 * 1024 → format_bytes b = fmt2N b 1024 ++ " KB")
        ∧ (1024 * 1024 ≤ b → b < 1024 * 1024 * 1024 →
            format_bytes b = fmt2N b (1024 * 1024) ++ " MB")
        ∧ (1024 * 1024 * 1024 ≤ b →
            format_bytes b = fmt2N b (1024 * 1024 * 1024) ++ " GB"))
    ∧ format_bytes 1023 = "1023 B"
    ∧ format_bytes 1024 = "1.00 KB"
    ∧ format_bytes 1048576 = "1.00 MB" := by
  refine ⟨?_, rfl, rfl, rfl⟩
  intro b
  refine ⟨?_, ?_, ?_, ?_⟩
  · intro h
    unfold format_bytes
    rw [if_pos h]
  · intro h1 h2
    unfold format_bytes
    rw [if_neg (by omega), if_pos h2]
  · intro h1 h2
    unfold format_bytes
    rw [if_neg (by omega), if_neg (by omega), if_pos h2]
  · intro h1
    unfold format_bytes
    rw [if_neg (by omega), if_neg (by omega), if_neg (by omega)]

/-- C8, witness: the KB branch applied at the concrete boundary input
1024. -/
theorem C8_format_bytes_units_witness :
    format_bytes 1024 = fmt2N 1024 1024 ++ " KB" :=
  (C8_format_bytes_units.1 1024).2.1 (by decide) (by decide)

/-- C9: the displayed metrics of a node are exactly the dispatch results of
its metrics, sorted by metric name (sorted: pairwise `≤` on names;
exactly: a permutation of the dispatched wire metrics); and the dispatch is
name-driven in the code's priority order — duration for a name containing
`"time"` or `"elapsed"`, bytes (of the value parsed as `u64`, defaulting
to 0) for one containing `"bytes"`, number for one containing `"rows"`,
and the raw value otherwise. -/
theorem C9_metric_dispatch_and_order :
    (∀ node : ExecutionPlanNode,
        (formatNodeMetrics node).Pairwise (fun a b => a.1 ≤ b.1)
        ∧ (formatNodeMetrics node).Perm
            (node.metrics.map (fun kv => (kv.1, dispatchMetric kv.1 kv.2))))
    ∧ (∀ k v, strContains k "time" = true ∨ strContains k "elapsed" = true →
        dispatchMetric k v = format_duration v)
    ∧ (∀ k v, strContains k "time" = false → strContains k "elapsed" = false →
        strContains k "bytes" = true →
        dispatchMetric k v = format_bytes ((parseU64 v).getD 0))
    ∧ (∀ k v, strContains k "time" = false → strContains k "elapsed" = false →
        strContains k "bytes" = false → strContains k "rows" = true →
        dispatchMetric k v = format_number v)
    ∧ (∀ k v, strContains k "time" = false → strContains k "elapsed" = false →
        strContains k "bytes" = false → strContains k "rows" = false →
        dispatchMetric k v = v) := by
  refine ⟨?_, ?_, ?_, ?_, ?_⟩
  · intro node
    constructor
    · refine pairwise_stableSortBy ?_ ?_ ?_ _
      · intro a b c hab hbc
        exact le_trans hab hbc
      · intro q p hk
        simp only [decide_eq_true_eq] at hk
        exact le_of_lt hk
      · intro q p hk
        simp only [decide_eq_false_iff_not, not_lt] at hk
        exact hk
    · exact perm_stableSortBy _ _
  · intro k v h
    unfold dispatchMetric
    rw [if_pos h]
  · intro k v h1 h2 h3
    unfold dispatchMetric
    rw [h1, h2, h3]
    simp
  · intro k v h1 h2 h3 h4
    unfold dispatchMetric
    rw [h1, h2, h3, h4]
    simp
  · intro k v h1 h2 h3 h4
    unfold dispatchMetric
    rw [h1, h2, h3, h4]
    simp

/-- C9, witness: the duration dispatch applied at a concrete
`elapsed`-labelled metric. -/
theorem C9_metric_dispatch_and_order_witness :
    dispatchMetric "elapsed_compute" "2500ns" = format_duration "2500ns" :=
  C9_metric_dispatch_and_order.2.1 "elapsed_compute" "2500ns" (Or.inr rfl)

/-- C10: the id of every decoded plan is the outer wire key of its pair;
the inner `id` field is parsed but never used to build the plan (records
differing only in the inner id build identical plans); and two concrete
records sharing the inner id `"dup"` under keys `"k1"` and `"k2"` decode
to plans with the distinct ids `"k2"` and `"k1"`. -/
theorem C10_plan_id_is_wire_key :
    (∀ key value plan, decodeRecord key value = Except.ok plan → plan.id = key)
    ∧ (∀ key p i1 i2 c st,
        buildPlan key ⟨p, i1, c, st⟩ = buildPlan key ⟨p, i2, c, st⟩)
    ∧ parse_execution_plans
        [("k1", recordVal (leafJson "Scan") "dup" 10),
         ("k2", recordVal (leafJson "Scan") "dup" 20)]
      = Except.ok [leafPlan "k2" "Scan" 20, leafPlan "k1" "Scan" 10] := by
  refine ⟨?_, ?_, rfl⟩
  · intro key value plan h
    rcases decodeRecord_ok_elim h with ⟨j, resp, _, _, hb⟩
    exact (buildPlan_ok_elim hb).1
  · intro key p i1 i2 c st
    rfl

/-- C10, witness: the id equation applied at a concrete decoded record. -/
theorem C10_plan_id_is_wire_key_witness :
    (leafPlan "a" "Scan" 10).id = "a" :=
  C10_plan_id_is_wire_key.1 "a" (recordVal (leafJson "Scan") "x" 10)
    (leafPlan "a" "Scan" 10) rfl

end LiquidCacheAdmin
